import Mathlib

/-!
Verification of the `uiautomator2` remote-control client
(`src/uiautomator2/__init__.py`) against its natural-language specification.

The development is a shallow embedding of the Python source:

* `PyVal` models the dynamically typed Python/JSON values that flow through
  the client (the payloads of JSON-RPC requests and responses, and the
  values stored in a `Selector`).
* `jsonrpc_call_response` embeds the response-handling tail of
  `AutomatorServer.jsonrpc_call` (lines 172-185): HTTP status check,
  truthiness test on the decoded `error` field, the server-error band
  check and the `exceptionTypeName` inspection.  Python runtime errors that
  the code itself can raise while executing (NameError from the undefined
  `message` variable on line 184, TypeError/AttributeError from dynamic
  typing) are explicit outcomes.
* `Selector` (a pure tree view) embeds the `Selector` dict subclass:
  the `__fields` table with its reserved mask bits, `__setitem__`,
  `__delitem__`, the constructor loop, `clone`, `child` and `sibling`.
* `Heap`-prefixed definitions embed the same class against an explicit
  object store (addresses into a list of objects), which is needed to state
  the aliasing property of `clone`: nested selectors are *references* in
  Python, and `clone` must produce a structure disjoint from the original.
* `Session.swipe` / `drag` / `swipePoints` / `set_orientation` and
  `UiObject.wait` / `wait_gone` embed the RPC-issuing methods as functions
  computing the `RpcCall` (method name and parameter list) handed to the
  transport.  Durations are rationals; Python's `int()` truncation toward
  zero is `pyInt`.
-/

namespace U2

/-- Python/JSON values as used by the client: `None`, booleans, integers,
strings, lists and string-keyed dicts (insertion-ordered association
lists, matching Python dict semantics). -/
inductive PyVal where
  | none
  | bool (b : Bool)
  | int (n : Int)
  | str (s : String)
  | list (xs : List PyVal)
  | obj (kvs : List (String × PyVal))

/-- Python truthiness (`if x:`): `None`, `False`, `0`, `""`, `[]`, `{}` are
falsy, everything else truthy. -/
def pyTruthy : PyVal → Bool
  | .none => false
  | .bool b => b
  | .int n => n != 0
  | .str s => s != ""
  | .list xs => !xs.isEmpty
  | .obj kvs => !kvs.isEmpty

/-- `d.get(k)` on a Python dict: the stored value, or `None` when absent. -/
def pyGet (kvs : List (String × PyVal)) (k : String) : PyVal :=
  (kvs.lookup k).getD .none

/-- `d.get(k, '')` on a Python dict: the stored value, or `''` when absent. -/
def pyGetStr (kvs : List (String × PyVal)) (k : String) : PyVal :=
  (kvs.lookup k).getD (.str "")

/-- `sub in s` for strings: substring test. -/
def substrB (sub s : String) : Bool :=
  s.toList.tails.any (fun t => sub.toList.isPrefixOf t)

/-- Python's `sub in x` where `sub` is a string literal: substring test on a
string, membership on a list, key membership on a dict; `none` models the
`TypeError` raised on `None`/int/bool operands. -/
def pyInStrVal (sub : String) : PyVal → Option Bool
  | .str s => some (substrB sub s)
  | .list xs => some (xs.any (fun e => match e with | .str t => t == sub | _ => false))
  | .obj kvs => some (kvs.any (fun p => p.1 == sub))
  | _ => Option.none

/-- Outcome of `AutomatorServer.jsonrpc_call` after the HTTP exchange:
either the decoded `result`, or one of the exceptions the code raises.
`uiObjectNotFound` is the raise on line 184 (never actually reached, see
`pyNameError`); `pyNameError`, `pyTypeError`, `pyAttributeError` are the
Python runtime errors the dynamic code can raise while dispatching. -/
inductive RpcOutcome where
  | ok (v : PyVal)
  | httpError (status : Nat)
  | uiObjectNotFound (msg : String)
  | jsonRpcError (error : PyVal)
  | pyNameError (name : String)
  | pyTypeError
  | pyAttributeError

/-- Embedding of the response-handling part of `AutomatorServer.jsonrpc_call`
(source lines 172-185), as a function of the HTTP status code and the decoded
JSON body:

```
if res.status_code != 200:
    raise UiaError(...)
jsondata = res.json()
error = jsondata.get('error')
if not error:
    return jsondata.get('result')
code, data = error.get('code'), error.get('data')
if -32099 <= code <= -32000: # Server error
    exceptionName = data and data.get('exceptionTypeName', '')
    if 'UiObjectNotFoundException' in exceptionName:
        raise UiObjectNotFoundError(repr(message))
raise JsonRpcError(error)
```

`message` on line 184 is an unbound name, so evaluating the argument of
`UiObjectNotFoundError` raises `NameError` (`pyNameError "message"`).
A non-dict truthy `error` or truthy non-dict `data` raises
`AttributeError` from `.get`; a non-int, non-bool `code` raises
`TypeError` from the chained comparison (a bool `code` compares as its
integer value and is never in the band, falling through to
`JsonRpcError`). -/
def jsonrpc_call_response (status : Nat) (body : PyVal) : RpcOutcome :=
  if status ≠ 200 then .httpError status
  else
    match body with
    | .obj kvs =>
      let error := pyGet kvs "error"
      if pyTruthy error = false then .ok (pyGet kvs "result")
      else
        match error with
        | .obj ekvs =>
          let code := pyGet ekvs "code"
          let data := pyGet ekvs "data"
          match code with
          | .int c =>
            if -32099 ≤ c ∧ c ≤ -32000 then
              -- exceptionName = data and data.get('exceptionTypeName', '')
              match (if pyTruthy data then
                       match data with
                       | .obj dkvs => some (pyGetStr dkvs "exceptionTypeName")
                       | _ => Option.none      -- AttributeError
                     else some data) with
              | Option.none => .pyAttributeError
              | some exceptionName =>
                match pyInStrVal "UiObjectNotFoundException" exceptionName with
                | Option.none => .pyTypeError
                | some true => .pyNameError "message"
                | some false => .jsonRpcError (.obj ekvs)
            else .jsonRpcError (.obj ekvs)
          | .bool _ => .jsonRpcError (.obj ekvs)
          | _ => .pyTypeError
        | _ => .pyAttributeError
    | _ => .pyAttributeError

/-! ## Selector: pure tree view -/

/-- The `Selector.__fields` table (source lines 568-594): each recognized
field name with its reserved mask bit and its (unused) default value. -/
def fieldsTable : List (String × Nat × PyVal) :=
  [("text", 0x01, .none),
   ("textContains", 0x02, .none),
   ("textMatches", 0x04, .none),
   ("textStartsWith", 0x08, .none),
   ("className", 0x10, .none),
   ("classNameMatches", 0x20, .none),
   ("description", 0x40, .none),
   ("descriptionContains", 0x80, .none),
   ("descriptionMatches", 0x0100, .none),
   ("descriptionStartsWith", 0x0200, .none),
   ("checkable", 0x0400, .bool false),
   ("checked", 0x0800, .bool false),
   ("clickable", 0x1000, .bool false),
   ("longClickable", 0x2000, .bool false),
   ("scrollable", 0x4000, .bool false),
   ("enabled", 0x8000, .bool false),
   ("focusable", 0x010000, .bool false),
   ("focused", 0x020000, .bool false),
   ("selected", 0x040000, .bool false),
   ("packageName", 0x080000, .none),
   ("packageNameMatches", 0x100000, .none),
   ("resourceId", 0x200000, .none),
   ("resourceIdMatches", 0x400000, .none),
   ("index", 0x800000, .int 0),
   ("instance", 0x01000000, .int 0)]

/-- The closed set of recognized selector field names (`k in self.__fields`). -/
def fieldNames : List String := fieldsTable.map (·.1)

/-- The reserved mask bit of a recognized field (`self.__fields[k][0]`). -/
def fieldBit (k : String) : Nat :=
  ((fieldsTable.lookup k).map (·.1)).getD 0

/-- A `Selector` value: the user fields (the dict entries other than the
three bookkeeping keys), the `mask` integer, and the two parallel relation
sequences `childOrSibling` (tags) and `childOrSiblingSelector` (nested
selectors). -/
inductive Selector where
  | mk (fields : List (String × PyVal)) (mask : Nat)
       (childOrSibling : List String) (childOrSiblingSelector : List Selector)

def Selector.fields : Selector → List (String × PyVal)
  | .mk f _ _ _ => f

def Selector.mask : Selector → Nat
  | .mk _ m _ _ => m

def Selector.childOrSibling : Selector → List String
  | .mk _ _ cs _ => cs

def Selector.childOrSiblingSelector : Selector → List Selector
  | .mk _ _ _ css => css

/-- Errors a `Selector` operation can raise: `ReferenceError("%s is not
allowed." % k)` from `__setitem__` on an unrecognized field, and the
`KeyError` that `dict.__delitem__` raises on a recognized but absent key. -/
inductive SelErr where
  | invalidField (field : String)
  | keyError (field : String)

/-- Dict assignment `d[k] = v`: overwrite in place when the key is present
(Python dicts keep the original insertion position), append otherwise. -/
def assocSet (l : List (String × PyVal)) (k : String) (v : PyVal) :
    List (String × PyVal) :=
  if (l.lookup k).isSome then
    l.map (fun p => if p.1 = k then (k, v) else p)
  else l ++ [(k, v)]

/-- Python's `mask & ~bit` on non-negative ints: clear the bits of `bit`
(`~bit` has all other bit positions set, so the conjunction keeps exactly
the bits of `m` outside `bit`).  Written as `m ^^^ (m &&& bit)`, which is
bitwise equal to and-not (see `pyAndNot_eq_ldiff`). -/
def pyAndNot (m bit : Nat) : Nat := m ^^^ (m &&& bit)

/-- `Selector.__setitem__` (source lines 604-609): recognized fields are
stored (via the identity `U` in Python 3) and their reserved bit is OR'ed
into the mask; any other key raises `ReferenceError`. -/
def Selector.setitem : Selector → String → PyVal → Except SelErr Selector
  | .mk fs m cs css, k, v =>
    if k ∈ fieldNames then
      .ok (.mk (assocSet fs k v) (m ||| fieldBit k) cs css)
    else .error (.invalidField k)

/-- `Selector.__delitem__` (source lines 611-614): for a recognized field,
delete the dict entry (raising `KeyError` when absent, as
`dict.__delitem__` does) and clear the reserved bit with `mask & ~bit`;
for an unrecognized field the method has no `else` branch and silently
does nothing. -/
def Selector.delitem : Selector → String → Except SelErr Selector
  | .mk fs m cs css, k =>
    if k ∈ fieldNames then
      if (fs.lookup k).isSome then
        .ok (.mk (fs.filter (fun p => !(p.1 == k)))
                 (pyAndNot m (fieldBit k)) cs css)
      else .error (.keyError k)
    else .ok (.mk fs m cs css)

/-- The constructor loop `for k in kwargs: self[k] = kwargs[k]`, applied to
a starting selector: set each pair in order, propagating the first error. -/
def setAll : Selector → List (String × PyVal) → Except SelErr Selector
  | s, [] => .ok s
  | s, (k, v) :: rest =>
    match s.setitem k v with
    | .ok s' => setAll s' rest
    | .error e => .error e

/-- `Selector.__init__` (source lines 597-602): mask 0, empty relation
sequences, then the constructor loop over the keyword fields. -/
def mkSelector (kwargs : List (String × PyVal)) : Except SelErr Selector :=
  setAll (.mk [] 0 [] []) kwargs

/-- `Selector.child` / `Selector.sibling` (source lines 626-634) as a
state-plus-exception function: the relation tag is appended *first*, then
`Selector(**kwargs)` is constructed.  When the construction raises, the
exception propagates with the tag already appended and no nested selector
appended — the returned pair is (post-state, raised error if any). -/
def Selector.childOrSiblingAppend (tag : String) (s : Selector)
    (kwargs : List (String × PyVal)) : Selector × Option SelErr :=
  match s with
  | .mk fs m cs css =>
    let s₁ : Selector := .mk fs m (cs ++ [tag]) css
    match mkSelector kwargs with
    | .ok kid => (.mk fs m (cs ++ [tag]) (css ++ [kid]), Option.none)
    | .error e => (s₁, some e)

/-- `Selector.child(**kwargs)` on the normal (non-raising) path. -/
def Selector.child (s : Selector) (kwargs : List (String × PyVal)) :
    Except SelErr Selector :=
  match Selector.childOrSiblingAppend "child" s kwargs with
  | (s', Option.none) => .ok s'
  | (_, some e) => .error e

/-- `Selector.sibling(**kwargs)` on the normal (non-raising) path. -/
def Selector.sibling (s : Selector) (kwargs : List (String × PyVal)) :
    Except SelErr Selector :=
  match Selector.childOrSiblingAppend "sibling" s kwargs with
  | (s', Option.none) => .ok s'
  | (_, some e) => .error e

mutual
/-- `Selector.clone` (source lines 616-624), pure tree view: rebuild a fresh
selector from the non-bookkeeping entries via the constructor, copy the
relation tags, and recursively clone every nested selector. -/
def Selector.clone : Selector → Except SelErr Selector
  | .mk fs _ cs css =>
    match setAll (.mk [] 0 [] []) fs with
    | .error e => .error e
    | .ok base =>
      match Selector.cloneList css with
      | .error e => .error e
      | .ok css' => .ok (.mk base.fields base.mask cs css')

/-- Clone each nested selector in order (the `for s in
self[childOrSiblingSelector]` loop). -/
def Selector.cloneList : List Selector → Except SelErr (List Selector)
  | [] => .ok []
  | s :: rest =>
    match Selector.clone s, Selector.cloneList rest with
    | .ok s', .ok rest' => .ok (s' :: rest')
    | .error e, _ => .error e
    | .ok _, .error e => .error e
end

/-- The co-indexing invariant of the two relation sequences: equal lengths,
recursively for every nested selector. -/
inductive SelectorInv : Selector → Prop where
  | mk {fs m cs css} : cs.length = css.length → (∀ s ∈ css, SelectorInv s) →
      SelectorInv (.mk fs m cs css)

/-- One step of the selector-building API: `child(**kwargs)`,
`sibling(**kwargs)` or `clone()` (construction is `mkSelector`). -/
inductive SelOp where
  | child (kwargs : List (String × PyVal))
  | sibling (kwargs : List (String × PyVal))
  | clone

def applyOp (s : Selector) : SelOp → Except SelErr Selector
  | .child kwargs => s.child kwargs
  | .sibling kwargs => s.sibling kwargs
  | .clone => s.clone

/-- Apply a sequence of successful API operations left to right. -/
def applyOps (s : Selector) : List SelOp → Except SelErr Selector
  | [] => .ok s
  | op :: rest =>
    match applyOp s op with
    | .ok s' => applyOps s' rest
    | .error e => .error e

/-! ## Session and UiObject RPC-issuing methods -/

/-- A parameter of a JSON-RPC call: a plain value or a `Selector` (the wire
encoding of the selector dict is the transport's concern). -/
inductive RpcParam where
  | val (v : PyVal)
  | sel (s : Selector)

/-- The JSON-RPC call a client method hands to the transport: the method
name from the `jsonrpc.<name>(...)` attribute dispatch and the positional
params. -/
structure RpcCall where
  method : String
  params : List RpcParam

/-- Python's `int()` on a (rational) number: truncation toward zero. -/
def pyInt (q : ℚ) : ℤ := if 0 ≤ q then ⌊q⌋ else ⌈q⌉

/-- `Session.swipe` (source line 357):
`self.jsonrpc.swipe(fx, fy, tx, ty, int(duration*200))`. -/
def Session.swipe (fx fy tx ty : Int) (duration : ℚ) : RpcCall :=
  ⟨"swipe", [.val (.int fx), .val (.int fy), .val (.int tx), .val (.int ty),
             .val (.int (pyInt (duration * 200)))]⟩

/-- `Session.drag` (source line 368):
`self.jsonrpc.drag(sx, sy, ex, ey, int(duration*200))`. -/
def Session.drag (sx sy ex ey : Int) (duration : ℚ) : RpcCall :=
  ⟨"drag", [.val (.int sx), .val (.int sy), .val (.int ex), .val (.int ey),
            .val (.int (pyInt (duration * 200)))]⟩

/-- The flattening loop of `Session.swipePoints` (source lines 360-363):
`ppoints` is `[x0, y0, x1, y1, ...]`. -/
def flattenPoints : List (Int × Int) → List Int
  | [] => []
  | p :: ps => p.1 :: p.2 :: flattenPoints ps

/-- `Session.swipePoints` (source line 364):
`self.jsonrpc.swipePoints(ppoints, int(duration)*200)` — note the
truncation applies to `duration` alone, before the multiplication. -/
def Session.swipePoints (points : List (Int × Int)) (duration : ℚ) : RpcCall :=
  ⟨"swipePoints", [.val (.list ((flattenPoints points).map PyVal.int)),
                   .val (.int (pyInt duration * 200))]⟩

/-- One entry of the `Session.__orientation` table (source lines 308-313):
`(numeric code, canonical name, abbreviation, degrees)`. -/
structure OrientEntry where
  code : Int
  name : String
  abbr : String
  degrees : Int

/-- The `Session.__orientation` table. -/
def orientationTable : List OrientEntry :=
  [⟨0, "natural", "n", 0⟩,
   ⟨1, "left", "l", 90⟩,
   ⟨2, "upsidedown", "u", 180⟩,
   ⟨3, "right", "r", 270⟩]

/-- Python `==` between a value and an int table entry (`True == 1` and
`False == 0` hold because bool is an int subclass). -/
def pyEqInt (v : PyVal) (n : Int) : Bool :=
  match v with
  | .int m => m == n
  | .bool b => (if b then (1 : Int) else 0) == n
  | _ => false

/-- Python `==` between a value and a string table entry. -/
def pyEqStr (v : PyVal) (s : String) : Bool :=
  match v with
  | .str t => t == s
  | _ => false

/-- `value in values` for one orientation tuple: membership via Python
equality against the four components, in tuple order. -/
def orientMatches (v : PyVal) (e : OrientEntry) : Bool :=
  pyEqInt v e.code || pyEqStr v e.name || pyEqStr v e.abbr || pyEqInt v e.degrees

/-- The `ValueError("Invalid orientation.")` of `Session.set_orientation`. -/
inductive OrientErr where
  | valueError (msg : String)

/-- `Session.set_orientation` (source lines 417-425): scan the orientation
table in order, issue `setOrientation` with the canonical name of the first
entry containing the value, or raise `ValueError` when the loop's `else`
branch is reached. -/
def Session.set_orientation (value : PyVal) : Except OrientErr RpcCall :=
  match orientationTable.find? (orientMatches value) with
  | some e => .ok ⟨"setOrientation", [.val (.str e.name)]⟩
  | Option.none => .error (.valueError "Invalid orientation.")

/-- `UiObject.wait` (source lines 519-530): one blocking RPC,
`waitForExists` or `waitUntilGone`, with the timeout converted to
milliseconds by `int(timeout*1000)`. -/
def UiObject.wait (selector : Selector) (exists_ : Bool) (timeout : ℚ) :
    RpcCall :=
  if exists_ then
    ⟨"waitForExists", [.sel selector, .val (.int (pyInt (timeout * 1000)))]⟩
  else
    ⟨"waitUntilGone", [.sel selector, .val (.int (pyInt (timeout * 1000)))]⟩

/-- `UiObject.wait_gone` (source lines 532-534):
`return self.wait(exists=False)` — the method's own `timeout` parameter is
not passed on, so `wait` uses its default `timeout=10.0`. -/
def UiObject.wait_gone (selector : Selector) (timeout : ℚ) : RpcCall :=
  UiObject.wait selector false 10

/-! ## Selector: heap view

Python selectors are mutable objects and the nested selectors in
`childOrSiblingSelector` are references.  To state what `clone` guarantees
about aliasing we embed the class against an explicit store: an address is
an index into a list of selector objects, and a selector object keeps the
*addresses* of its nested selectors. -/

/-- A selector object on the heap: user fields, mask and relation tags by
value, nested selectors by address. -/
structure SObj where
  fields : List (String × PyVal)
  mask : Nat
  childOrSibling : List String
  childOrSiblingSelector : List Nat

/-- The heap: address `i` holds `st[i]?`. -/
abbrev Store := List SObj

/-- The mask value the constructor computes for a field list: OR of the
reserved bits, starting from 0. -/
def maskOf (fs : List (String × PyVal)) : Nat :=
  fs.foldl (fun m p => m ||| fieldBit p.1) 0

/-- A well-formed selector object (as every object built through the class
API is): distinct field keys (it is a dict), every key recognized, the mask
equal to the OR of the reserved bits of the present fields, and every
nested-selector address valid for a store of `n` objects. -/
def WFObj (n : Nat) (o : SObj) : Prop :=
  (o.fields.map Prod.fst).Nodup ∧
  (∀ p ∈ o.fields, p.1 ∈ fieldNames) ∧
  o.mask = maskOf o.fields ∧
  (∀ c ∈ o.childOrSiblingSelector, c < n)

instance (n : Nat) (o : SObj) : Decidable (WFObj n o) := by
  unfold WFObj; infer_instance

/-- A well-formed store: every object on it is well formed. -/
def WFStore (st : Store) : Prop :=
  ∀ o ∈ st, WFObj st.length o

instance (st : Store) : Decidable (WFStore st) := by
  unfold WFStore; infer_instance

/-- Read the pure tree values of a list of addresses: apply the one-address
reader `vf` to each element, in order, failing when any element fails. -/
def valueOfList (vf : Nat → Option Selector) : List Nat → Option (List Selector)
  | [] => some []
  | c :: cs =>
    match vf c, valueOfList vf cs with
    | some v, some vs => some (v :: vs)
    | _, _ => Option.none

/-- Read the pure tree value of the selector at address `a` (the fuel bounds
the dereferencing depth; a cyclic or too-deep structure yields `none`). -/
def valueOf : Nat → Store → Nat → Option Selector
  | 0, _, _ => Option.none
  | fuel + 1, st, a =>
    match st[a]? with
    | Option.none => Option.none
    | some o =>
      match valueOfList (fun c => valueOf fuel st c) o.childOrSiblingSelector with
      | Option.none => Option.none
      | some kids => some (.mk o.fields o.mask o.childOrSibling kids)

/-- Does the one-address reachability test `rf` succeed on some element? -/
def ReachesList (rf : Nat → Bool) : List Nat → Bool
  | [] => false
  | c :: cs => rf c || ReachesList rf cs

/-- Is address `b` reachable from address `a` (through
`childOrSiblingSelector` references) within `fuel` dereferences? -/
def Reaches : Nat → Store → Nat → Nat → Bool
  | 0, _, _, _ => false
  | fuel + 1, st, a, b =>
    a == b ||
      (match st[a]? with
       | Option.none => false
       | some o => ReachesList (fun c => Reaches fuel st c b)
           o.childOrSiblingSelector)

/-- Append a nested-selector address to the object at `a'`
(`selector[childOrSiblingSelector].append(...)` during `clone`). -/
def appendKid (st : Store) (a' c' : Nat) : Option Store :=
  match st[a']? with
  | Option.none => Option.none
  | some o =>
    some (st.set a' { o with childOrSiblingSelector := o.childOrSiblingSelector ++ [c'] })

/-- The `for s in self[childOrSiblingSelector]: selector[...].append(s.clone())`
loop of `Selector.clone`: clone each address with the one-address cloner
`cf` (threading the store) and append each fresh copy to the object at
`a'`. -/
def Heap.cloneList (cf : Store → Nat → Option (Store × Nat)) :
    Store → Nat → List Nat → Option Store
  | st, _, [] => some st
  | st, a', c :: cs =>
    match cf st c with
    | Option.none => Option.none
    | some (st₂, c') =>
      match appendKid st₂ a' c' with
      | Option.none => Option.none
      | some st₃ => Heap.cloneList cf st₃ a' cs

/-- `Selector.clone` on the heap (source lines 616-624): read the object at
`a`, allocate a fresh object built by `Selector(**kwargs)` from its
non-bookkeeping fields (tags copied by value, nested list empty), then
clone each nested selector and append the resulting fresh addresses.
`none` covers exhausted fuel, a dangling address, and the (API-unreachable)
`ReferenceError` from rebuilding an unrecognized field. -/
def Heap.clone : Nat → Store → Nat → Option (Store × Nat)
  | 0, _, _ => Option.none
  | fuel + 1, st, a =>
    match st[a]? with
    | Option.none => Option.none
    | some o =>
      match setAll (.mk [] 0 [] []) o.fields with
      | .error _ => Option.none
      | .ok base =>
        match Heap.cloneList (fun st c => Heap.clone fuel st c)
            (st ++ [⟨base.fields, base.mask, o.childOrSibling, []⟩])
            st.length o.childOrSiblingSelector with
        | Option.none => Option.none
        | some st' => some (st', st.length)

/-- `selector[k] = v` on the heap: mutate the object at address `b` through
`Selector.__setitem__` (recognized field required; the mutation the claim
performs on the clone's nested selectors). -/
def mutateField (st : Store) (b : Nat) (k : String) (v : PyVal) : Option Store :=
  match st[b]? with
  | Option.none => Option.none
  | some o =>
    if k ∈ fieldNames then
      some (st.set b { o with fields := assocSet o.fields k v,
                              mask := o.mask ||| fieldBit k })
    else Option.none

/-! ## Helper lemmas -/

/-- `isOkB` of an `Except`: did the operation succeed? -/
def isOkB {ε α : Type} : Except ε α → Bool
  | .ok _ => true
  | .error _ => false

theorem pyAndNot_eq_ldiff (m b : Nat) : pyAndNot m b = Nat.ldiff m b := by
  apply Nat.eq_of_testBit_eq
  intro i
  simp only [pyAndNot, Nat.testBit_xor, Nat.testBit_land, Nat.testBit_ldiff]
  cases m.testBit i <;> cases b.testBit i <;> rfl

theorem lor_land_self (m b : Nat) : (m ||| b) &&& b = b := by
  apply Nat.eq_of_testBit_eq
  intro i
  simp only [Nat.testBit_land, Nat.testBit_lor]
  cases m.testBit i <;> cases b.testBit i <;> rfl

theorem pyAndNot_land_self (m b : Nat) : pyAndNot m b &&& b = 0 := by
  apply Nat.eq_of_testBit_eq
  intro i
  simp only [pyAndNot, Nat.testBit_land, Nat.testBit_xor, Nat.zero_testBit]
  cases m.testBit i <;> cases b.testBit i <;> rfl

theorem lookup_map_set (l : List (String × PyVal)) (k : String) (v : PyVal)
    (h : (l.lookup k).isSome) :
    (l.map (fun p => if p.1 = k then (k, v) else p)).lookup k = some v := by
  induction l with
  | nil => simp at h
  | cons p l ih =>
    obtain ⟨a, b⟩ := p
    simp only [List.map_cons]
    by_cases hk : a = k
    · rw [if_pos (show (a, b).1 = k from hk)]
      simp [List.lookup_cons]
    · rw [if_neg (show ¬ (a, b).1 = k from hk)]
      have hk2 : (k == a) = false := by simp [Ne.symm hk]
      have h' : (l.lookup k).isSome := by
        simpa [List.lookup_cons, hk2] using h
      simp only [List.lookup_cons, hk2]
      exact ih h'

theorem lookup_append_new (l : List (String × PyVal)) (k : String) (v : PyVal)
    (h : l.lookup k = Option.none) :
    (l ++ [(k, v)]).lookup k = some v := by
  induction l with
  | nil => simp [List.lookup_cons]
  | cons p l ih =>
    obtain ⟨a, b⟩ := p
    by_cases hk : k = a
    · simp [List.lookup_cons, hk] at h
    · have hk2 : (k == a) = false := by simp [hk]
      simp only [List.lookup_cons, hk2, List.cons_append] at h ⊢
      exact ih h

theorem lookup_assocSet (l : List (String × PyVal)) (k : String) (v : PyVal) :
    (assocSet l k v).lookup k = some v := by
  unfold assocSet
  by_cases h : (l.lookup k).isSome
  · rw [if_pos h]; exact lookup_map_set l k v h
  · rw [if_neg h]
    refine lookup_append_new l k v ?_
    cases hl : l.lookup k with
    | none => rfl
    | some w => rw [hl] at h; simp at h

theorem lookup_filter_ne (l : List (String × PyVal)) (k : String) :
    (l.filter (fun p => !(p.1 == k))).lookup k = Option.none := by
  induction l with
  | nil => simp
  | cons p l ih =>
    obtain ⟨a, b⟩ := p
    by_cases hk : a = k
    · simpa [List.filter_cons, hk] using ih
    · have hk1 : ((a, b).1 == k) = false := by simp [hk]
      have hk2 : (k == a) = false := by simp [Ne.symm hk]
      simp only [List.filter_cons, hk1, Bool.not_false, if_pos, List.lookup_cons, hk2]
      exact ih

/-! ## C1 -/

/-- The decoded JSON body of a server-error response whose
`error.data.exceptionTypeName` names `UiObjectNotFoundException`. -/
def c1Body : PyVal :=
  .obj [("jsonrpc", .str "2.0"), ("id", .str "1"),
        ("error", .obj
          [("code", .int (-32001)),
           ("message", .str "uiautomator exception"),
           ("data", .obj
             [("exceptionTypeName",
               .str "android.support.test.uiautomator.UiObjectNotFoundException")])])]

/-- C1: the claim says that a JSON-RPC response with a server-error code in
`-32099..-32000` and `error.data.exceptionTypeName` containing
`"UiObjectNotFoundException"` makes `jsonrpc_call` fail with
`UiObjectNotFoundError`.  On that exact path the code evaluates
`repr(message)` (line 184) where `message` is an unbound name, so the call
actually fails with Python's `NameError` and the intended
`UiObjectNotFoundError` is never raised: the code contradicts the spec's
stated intent. -/
theorem c1_uiObjectNotFound_branch_raises_nameError :
    jsonrpc_call_response 200 c1Body = .pyNameError "message" ∧
    ∀ m : String, jsonrpc_call_response 200 c1Body ≠ .uiObjectNotFound m := by
  have h0 : jsonrpc_call_response 200 c1Body = .pyNameError "message" := by rfl
  exact ⟨h0, fun m h => by rw [h0] at h; exact RpcOutcome.noConfusion h⟩

/-! ## C2 -/

theorem setAll_error_of_bad_key (f : String) (v : PyVal)
    (hf : f ∉ fieldNames) :
    ∀ (pre post : List (String × PyVal)) (s : Selector),
      isOkB (setAll s (pre ++ (f, v) :: post)) = false := by
  intro pre
  induction pre with
  | nil =>
    intro post s
    obtain ⟨fs, m, cs, css⟩ := s
    simp only [List.nil_append, setAll, Selector.setitem, if_neg hf]
    rfl
  | cons kv pre ih =>
    intro post s
    obtain ⟨fs, m, cs, css⟩ := s
    obtain ⟨k, w⟩ := kv
    simp only [List.cons_append, setAll, Selector.setitem]
    by_cases hk : k ∈ fieldNames
    · rw [if_pos hk]
      exact ih post _
    · rw [if_neg hk]
      rfl

/-- C2: for any string `f` outside the closed set of recognized selector
field names, `selector[f] = v` raises the invalid-field error
(`ReferenceError` in the source, the spec's *InvalidFieldError*), for every
selector state and value, and a constructor call whose keyword fields
contain `f` never succeeds.  The check is local to `Selector.__setitem__`
— no transport definition is involved. -/
theorem c2_unrecognized_field_set_fails (f : String)
    (hf : f ∉ fieldNames) :
    (∀ (s : Selector) (v : PyVal),
        Selector.setitem s f v = .error (.invalidField f)) ∧
    (∀ (pre post : List (String × PyVal)) (v : PyVal),
        isOkB (mkSelector (pre ++ (f, v) :: post)) = false) := by
  constructor
  · intro s v
    obtain ⟨fs, m, cs, css⟩ := s
    simp only [Selector.setitem, if_neg hf]
  · intro pre post v
    exact setAll_error_of_bad_key f v hf pre post _

/-- Witness for C2 at the concrete field name `"foo"`. -/
theorem c2_witness :
    Selector.setitem (.mk [] 0 [] []) "foo" (.int 3) =
      .error (.invalidField "foo") ∧
    isOkB (mkSelector [("foo", .int 3)]) = false := by
  have h := c2_unrecognized_field_set_fails "foo" (by decide)
  exact ⟨h.1 (.mk [] 0 [] []) (.int 3), h.2 [] [] (.int 3)⟩

/-! ## C3 -/

/-- C3 counterexample: the claim says `del selector[f]` on an unrecognized
field fails with *InvalidFieldError* the same way setting does.  In the
code `__delitem__` has no `else` branch, so `del selector["foo"]` silently
does nothing and raises no error at all. -/
theorem c3_counterexample_delitem_silent :
    Selector.delitem (.mk [] 0 [] []) "foo" = .ok (.mk [] 0 [] []) ∧
    Selector.delitem (.mk [] 0 [] []) "foo" ≠ .error (.invalidField "foo") := by
  have h0 : Selector.delitem (.mk [] 0 [] []) "foo" = .ok (.mk [] 0 [] []) := by rfl
  exact ⟨h0, fun h => by rw [h0] at h; exact Except.noConfusion h⟩

/-- C3 amended: unsetting an unrecognized field name is a silent no-op —
`__delitem__` only acts on recognized fields and raises nothing otherwise
(unlike `__setitem__`, which raises on unrecognized fields). -/
theorem c3_amended_delitem_unrecognized_noop (s : Selector) (f : String)
    (hf : f ∉ fieldNames) :
    Selector.delitem s f = .ok s := by
  obtain ⟨fs, m, cs, css⟩ := s
  simp only [Selector.delitem, if_neg hf]

/-- Witness for the amended C3 at the concrete field name `"foo"`. -/
theorem c3_amended_witness :
    Selector.delitem (.mk [("text", .str "x")] 1 [] []) "foo" =
      .ok (.mk [("text", .str "x")] 1 [] []) :=
  c3_amended_delitem_unrecognized_noop _ "foo" (by decide)

/-! ## C4 -/

/-- C4: for every recognized field `f`, setting `selector[f] = v` succeeds,
after which reading `selector[f]` returns `v` and the field's reserved bit
is present in the mask; deleting `selector[f]` then removes the stored
value and clears the reserved bit. -/
theorem c4_set_get_mask_roundtrip (s : Selector) (f : String) (v : PyVal)
    (s₁ s₂ : Selector) (hf : f ∈ fieldNames)
    (h₁ : Selector.setitem s f v = .ok s₁)
    (h₂ : Selector.delitem s₁ f = .ok s₂) :
    s₁.fields.lookup f = some v ∧
    s₁.mask &&& fieldBit f = fieldBit f ∧
    s₂.fields.lookup f = Option.none ∧
    s₂.mask &&& fieldBit f = 0 := by
  obtain ⟨fs, m, cs, css⟩ := s
  simp only [Selector.setitem, if_pos hf] at h₁
  injection h₁ with h₁
  subst h₁
  have hlook : (assocSet fs f v).lookup f = some v := lookup_assocSet fs f v
  simp only [Selector.delitem, Selector.fields, if_pos hf, hlook,
    Option.isSome_some, if_true] at h₂
  injection h₂ with h₂
  subst h₂
  refine ⟨hlook, lor_land_self m (fieldBit f), ?_, ?_⟩
  · exact lookup_filter_ne (assocSet fs f v) f
  · exact pyAndNot_land_self (m ||| fieldBit f) (fieldBit f)

/-- Witness for C4 at the concrete field `"text"`. -/
theorem c4_witness :
    (Selector.fields (.mk [("text", .str "hi")] 1 [] [])).lookup "text" =
        some (.str "hi") ∧
    Selector.mask (.mk [("text", .str "hi")] 1 [] []) &&& fieldBit "text" =
        fieldBit "text" ∧
    (Selector.fields (.mk ([] : List (String × PyVal)) 0 [] [])).lookup "text" =
        Option.none ∧
    Selector.mask (.mk ([] : List (String × PyVal)) 0 [] []) &&& fieldBit "text" = 0 :=
  c4_set_get_mask_roundtrip (.mk [] 0 [] []) "text" (.str "hi")
    (.mk [("text", .str "hi")] 1 [] []) (.mk [] 0 [] [])
    (by decide) (by rfl) (by rfl)

/-! ## C6 -/

theorem setAll_shape (l : List (String × PyVal)) :
    ∀ (fs : List (String × PyVal)) (m : Nat) (cs : List String)
      (css : List Selector) (s' : Selector),
      setAll (.mk fs m cs css) l = .ok s' →
      ∃ fs' m', s' = .mk fs' m' cs css := by
  induction l with
  | nil =>
    intro fs m cs css s' h
    simp only [setAll] at h
    injection h with h
    exact ⟨fs, m, h.symm⟩
  | cons kv l ih =>
    intro fs m cs css s' h
    obtain ⟨k, v⟩ := kv
    simp only [setAll, Selector.setitem] at h
    by_cases hk : k ∈ fieldNames
    · rw [if_pos hk] at h
      exact ih _ _ _ _ _ h
    · rw [if_neg hk] at h
      exact absurd h (by simp)

theorem mkSelector_inv (kwargs : List (String × PyVal)) (s : Selector)
    (h : mkSelector kwargs = .ok s) : SelectorInv s := by
  obtain ⟨fs', m', rfl⟩ := setAll_shape kwargs [] 0 [] [] s h
  exact SelectorInv.mk rfl (by simp)

theorem child_sibling_inv (tag : String) (s : Selector)
    (kwargs : List (String × PyVal)) (s' : Selector)
    (h : (match Selector.childOrSiblingAppend tag s kwargs with
          | (s', Option.none) => Except.ok s'
          | (_, some e) => Except.error e) = .ok s')
    (hs : SelectorInv s) : SelectorInv s' := by
  obtain ⟨fs, m, cs, css⟩ := s
  simp only [Selector.childOrSiblingAppend] at h
  cases hkid : mkSelector kwargs with
  | ok kid =>
    rw [hkid] at h
    simp only [] at h
    injection h with h
    subst h
    cases hs with
    | mk hlen hkids =>
      refine SelectorInv.mk (by simp [hlen]) ?_
      intro x hx
      rcases List.mem_append.1 hx with hx | hx
      · exact hkids x hx
      · rw [List.mem_singleton.1 hx]
        exact mkSelector_inv kwargs kid hkid
  | error e =>
    rw [hkid] at h
    exact absurd h (by simp)

theorem cloneList_inv (l : List Selector) :
    ∀ l', Selector.cloneList l = .ok l' →
      (∀ x ∈ l, SelectorInv x) →
      (∀ x ∈ l, ∀ y, Selector.clone x = .ok y → SelectorInv y) →
      l'.length = l.length ∧ ∀ y ∈ l', SelectorInv y := by
  induction l with
  | nil =>
    intro l' h _ _
    simp only [Selector.cloneList] at h
    injection h with h
    subst h
    simp
  | cons x l ih =>
    intro l' h hinv hcl
    simp only [Selector.cloneList] at h
    cases hx : Selector.clone x with
    | ok y =>
      rw [hx] at h
      cases hl : Selector.cloneList l with
      | ok rest' =>
        rw [hl] at h
        simp only [] at h
        injection h with h
        subst h
        obtain ⟨hlen, hmem⟩ := ih rest' hl (fun z hz => hinv z (by simp [hz]))
          (fun z hz => hcl z (by simp [hz]))
        refine ⟨by simp [hlen], ?_⟩
        intro y' hy'
        rcases List.mem_cons.1 hy' with h' | hy'
        · exact h' ▸ hcl x (by simp) y hx
        · exact hmem y' hy'
      | error e =>
        rw [hl] at h
        exact absurd h (by simp)
    | error e =>
      rw [hx] at h
      exact absurd h (by simp)

theorem clone_inv (s : Selector) (hs : SelectorInv s) :
    ∀ s', Selector.clone s = .ok s' → SelectorInv s' := by
  induction hs with
  | @mk fs m cs css hlen hkids ih =>
    intro s' h
    simp only [Selector.clone] at h
    cases hbase : setAll (.mk [] 0 [] []) fs with
    | ok base =>
      rw [hbase] at h
      cases hcss : Selector.cloneList css with
      | ok css' =>
        rw [hcss] at h
        simp only [] at h
        injection h with h
        subst h
        obtain ⟨hlen', hmem⟩ := cloneList_inv css css' hcss hkids ih
        exact SelectorInv.mk (by rw [hlen, hlen']) hmem
      | error e =>
        rw [hcss] at h
        exact absurd h (by simp)
    | error e =>
      rw [hbase] at h
      exact absurd h (by simp)

theorem applyOps_inv (ops : List SelOp) :
    ∀ s s', SelectorInv s → applyOps s ops = .ok s' → SelectorInv s' := by
  induction ops with
  | nil =>
    intro s s' hs h
    simp only [applyOps] at h
    injection h with h
    subst h
    exact hs
  | cons op ops ih =>
    intro s s' hs h
    simp only [applyOps] at h
    cases hop : applyOp s op with
    | ok s₁ =>
      rw [hop] at h
      refine ih s₁ s' ?_ h
      cases op with
      | child kwargs => exact child_sibling_inv "child" s kwargs s₁ hop hs
      | sibling kwargs => exact child_sibling_inv "sibling" s kwargs s₁ hop hs
      | clone => exact clone_inv s hs s₁ hop
    | error e =>
      rw [hop] at h
      exact absurd h (by simp)

/-- C6 counterexample: the claim says the relation-tag sequence and the
nested-selector sequence always have the same length under any sequence of
constructions, `child`, `sibling` and `clone` calls.  But `child` appends
the tag *before* constructing the nested `Selector(**kwargs)`: when that
construction raises (unrecognized field `"foo"`), the exception propagates
with the tag appended and no nested selector appended, leaving the two
sequences with lengths 1 and 0. -/
theorem c6_counterexample_failed_child_breaks_lengths :
    Selector.childOrSiblingAppend "child" (.mk [] 0 [] []) [("foo", .int 3)] =
      (.mk [] 0 ["child"] [], some (.invalidField "foo")) ∧
    ¬ SelectorInv (.mk [] 0 ["child"] []) := by
  refine ⟨by rfl, fun h => ?_⟩
  cases h with
  | mk hlen hkids => simp at hlen

/-- C6 amended: for every selector built by a (succeeding) construction and
every sequence of *succeeding* `child`/`sibling`/`clone` operations, the
relation-tag sequence and the nested-selector sequence have the same
length, recursively in every nested selector.  (A `child`/`sibling` call
that raises on an unrecognized field leaves the tag appended without a
nested selector, breaking the equality — see the counterexample.) -/
theorem c6_amended_ops_preserve_coindexing (kwargs : List (String × PyVal))
    (ops : List SelOp) (s₀ s : Selector)
    (h₀ : mkSelector kwargs = .ok s₀)
    (h : applyOps s₀ ops = .ok s) : SelectorInv s :=
  applyOps_inv ops s₀ s (mkSelector_inv kwargs s₀ h₀) h

/-- Witness for the amended C6: construct `Selector(text="a")`, then a
succeeding `child(checked=True)` and a `clone()`. -/
theorem c6_amended_witness :
    SelectorInv (.mk [("text", .str "a")] 1 ["child"]
      [.mk [("checked", .bool true)] 0x0800 [] []]) :=
  c6_amended_ops_preserve_coindexing [("text", .str "a")]
    [.child [("checked", .bool true)], .clone]
    (.mk [("text", .str "a")] 1 [] [])
    (.mk [("text", .str "a")] 1 ["child"]
      [.mk [("checked", .bool true)] 0x0800 [] []])
    (by rfl) (by rfl)

/-! ## C7 -/

/-- C7 counterexample: the claim says `swipe`/`drag` send
`steps = round(duration * 200)` for *every* duration.  The code computes
`int(duration*200)`, which truncates: at `duration = 19/2000` (9.5 ms) the
product is `1.9`, the code sends `1`, while the claimed rounding gives `2`. -/
theorem c7_counterexample_trunc_vs_round :
    Session.swipe 0 0 100 100 (19/2000) =
      ⟨"swipe", [.val (.int 0), .val (.int 0), .val (.int 100),
                 .val (.int 100), .val (.int 1)]⟩ ∧
    round ((19/2000 : ℚ) * 200) = 2 ∧ (1 : ℤ) ≠ 2 := by
  have hq : ((19 : ℚ)/2000) * 200 = 19/10 := by norm_num
  have hp : pyInt ((19 : ℚ)/2000 * 200) = 1 := by
    rw [hq, pyInt, if_pos (by norm_num), Int.floor_eq_iff]
    norm_num
  refine ⟨?_, ?_, by norm_num⟩
  · simp only [Session.swipe, hp]
  · rw [hq, round_eq]
    rw [show (19 : ℚ)/10 + 1/2 = 12/5 by norm_num, Int.floor_eq_iff]
    norm_num

/-- C7 amended: `swipe` and `drag` convert the duration to
`steps = int(duration * 200)`, i.e. the product truncated toward zero (not
rounded to nearest); in particular `swipe(0,0,100,100,duration=1.0)`
issues `swipe` with params `[0, 0, 100, 100, 200]`, and `duration=0.5`
yields `steps=100`. -/
theorem c7_amended_steps_truncate (fx fy tx ty sx sy ex ey : Int) (d : ℚ) :
    Session.swipe fx fy tx ty d =
      ⟨"swipe", [.val (.int fx), .val (.int fy), .val (.int tx),
                 .val (.int ty), .val (.int (pyInt (d * 200)))]⟩ ∧
    Session.drag sx sy ex ey d =
      ⟨"drag", [.val (.int sx), .val (.int sy), .val (.int ex),
                .val (.int ey), .val (.int (pyInt (d * 200)))]⟩ ∧
    Session.swipe 0 0 100 100 1 =
      ⟨"swipe", [.val (.int 0), .val (.int 0), .val (.int 100),
                 .val (.int 100), .val (.int 200)]⟩ ∧
    pyInt ((1/2 : ℚ) * 200) = 100 := by
  have h1 : pyInt ((1 : ℚ) * 200) = 200 := by
    rw [pyInt, if_pos (by norm_num)]
    norm_num
  have h2 : pyInt ((1/2 : ℚ) * 200) = 100 := by
    rw [pyInt, if_pos (by norm_num)]
    norm_num
  exact ⟨rfl, rfl, by simp only [Session.swipe, h1], h2⟩

/-! ## C8 -/

/-- C8: `set_orientation` fails with `ValueError` (the spec's
*InvalidArgumentError*) exactly when the value matches none of the four
representations (code, name, abbreviation, degrees — under Python `==`,
where booleans compare as their integer values) of any orientation table
entry; when the value does match an entry, it issues the `setOrientation`
RPC with that entry's canonical name. -/
theorem c8_set_orientation_cases (v : PyVal) :
    (Session.set_orientation v = .error (.valueError "Invalid orientation.") ↔
      ∀ e ∈ orientationTable, orientMatches v e = false) ∧
    (∀ e ∈ orientationTable, orientMatches v e = true →
      Session.set_orientation v = .ok ⟨"setOrientation", [.val (.str e.name)]⟩) := by
  constructor
  · unfold Session.set_orientation
    cases hf : orientationTable.find? (orientMatches v) with
    | some e =>
      constructor
      · intro h
        exact absurd h (by simp)
      · intro hall
        have hp := List.find?_some hf
        rw [hall e (List.mem_of_find?_eq_some hf)] at hp
        cases hp
    | none =>
      constructor
      · intro _ e he
        have := List.find?_eq_none.1 hf e he
        simpa using this
      · intro _
        rfl
  · intro e he hm
    simp only [orientationTable, List.mem_cons, List.not_mem_nil, or_false] at he
    cases v with
    | int n =>
      rcases he with rfl | rfl | rfl | rfl
      · simp [orientMatches, pyEqInt, pyEqStr] at hm
        subst hm; rfl
      · simp [orientMatches, pyEqInt, pyEqStr] at hm
        rcases hm with rfl | rfl <;> rfl
      · simp [orientMatches, pyEqInt, pyEqStr] at hm
        rcases hm with rfl | rfl <;> rfl
      · simp [orientMatches, pyEqInt, pyEqStr] at hm
        rcases hm with rfl | rfl <;> rfl
    | str s =>
      rcases he with rfl | rfl | rfl | rfl <;>
        simp [orientMatches, pyEqInt, pyEqStr] at hm <;>
        rcases hm with rfl | rfl <;> rfl
    | bool b =>
      rcases he with rfl | rfl | rfl | rfl <;> cases b <;>
        simp [orientMatches, pyEqInt, pyEqStr] at hm <;> rfl
    | none =>
      rcases he with rfl | rfl | rfl | rfl <;>
        exact absurd hm (by decide)
    | list xs =>
      rcases he with rfl | rfl | rfl | rfl <;>
        simp [orientMatches, pyEqInt, pyEqStr] at hm
    | obj kvs =>
      rcases he with rfl | rfl | rfl | rfl <;>
        simp [orientMatches, pyEqInt, pyEqStr] at hm

/-- Witness for C8: the abbreviation `"l"` matches the second table entry
and resolves to the canonical name `"left"`; the value `7` matches nothing
and raises `ValueError`. -/
theorem c8_witness :
    Session.set_orientation (.str "l") =
      .ok ⟨"setOrientation", [.val (.str "left")]⟩ ∧
    Session.set_orientation (.int 7) =
      .error (.valueError "Invalid orientation.") := by
  constructor
  · exact (c8_set_orientation_cases (.str "l")).2 ⟨1, "left", "l", 90⟩
      (by simp [orientationTable]) (by rfl)
  · exact (c8_set_orientation_cases (.int 7)).1.2 (by decide)

/-! ## C9 -/

/-- C9: `swipePoints` computes its step count as `int(duration) * 200` —
the duration is truncated to whole seconds *before* the multiplication —
so every duration in `[0, 1)`, including the default `0.5`, issues a step
count of `0`; `swipe` (which multiplies before truncating) sends `100` for
the same `0.5` duration. -/
theorem c9_swipePoints_truncates_before_multiplying
    (points : List (Int × Int)) (d : ℚ) (h₀ : 0 ≤ d) (h₁ : d < 1) :
    Session.swipePoints points d =
      ⟨"swipePoints", [.val (.list ((flattenPoints points).map PyVal.int)),
                       .val (.int 0)]⟩ ∧
    Session.swipePoints points (1/2) =
      ⟨"swipePoints", [.val (.list ((flattenPoints points).map PyVal.int)),
                       .val (.int 0)]⟩ ∧
    Session.swipe 0 0 100 100 (1/2) =
      ⟨"swipe", [.val (.int 0), .val (.int 0), .val (.int 100),
                 .val (.int 100), .val (.int 100)]⟩ := by
  have hz : pyInt d = 0 := by
    rw [pyInt, if_pos h₀]
    exact Int.floor_eq_zero_iff.2 ⟨h₀, h₁⟩
  have hhalf : pyInt ((1 : ℚ)/2) = 0 := by
    rw [pyInt, if_pos (by norm_num)]
    exact Int.floor_eq_zero_iff.2 (by constructor <;> norm_num)
  have hswipe : pyInt ((1/2 : ℚ) * 200) = 100 := by
    rw [pyInt, if_pos (by norm_num)]
    norm_num
  refine ⟨?_, ?_, ?_⟩
  · simp only [Session.swipePoints, hz, Int.zero_mul]
  · simp only [Session.swipePoints, hhalf, Int.zero_mul]
  · simp only [Session.swipe, hswipe]

/-- Witness for C9 at duration `0`. -/
theorem c9_witness :
    Session.swipePoints [] 0 =
      ⟨"swipePoints", [.val (.list []), .val (.int 0)]⟩ ∧
    Session.swipePoints [] (1/2) =
      ⟨"swipePoints", [.val (.list []), .val (.int 0)]⟩ ∧
    Session.swipe 0 0 100 100 (1/2) =
      ⟨"swipe", [.val (.int 0), .val (.int 0), .val (.int 100),
                 .val (.int 100), .val (.int 100)]⟩ := by
  have h := c9_swipePoints_truncates_before_multiplying [] 0
    (le_refl 0) (by decide)
  simpa [flattenPoints] using h

/-! ## C10 -/

/-- C10: `wait_gone` ignores its `timeout` argument: it calls
`self.wait(exists=False)` without forwarding it, so `wait` uses its
default `timeout=10.0` and the `waitUntilGone` RPC always receives
`10000` milliseconds, whatever `timeout` the caller passed. -/
theorem c10_wait_gone_ignores_timeout (selector : Selector) (timeout : ℚ) :
    UiObject.wait_gone selector timeout =
      ⟨"waitUntilGone", [.sel selector, .val (.int 10000)]⟩ := by
  have h : pyInt ((10 : ℚ) * 1000) = 10000 := by
    rw [pyInt, if_pos (by norm_num)]
    norm_num
  simp only [UiObject.wait_gone, UiObject.wait, Bool.false_eq_true,
    if_false, h]

/-! ## C5: frame, reachability and rebuild lemmas for the heap view -/

/-- Objects below address `n` reference only addresses below `n`. -/
def ClosedBelow (n : Nat) (st : Store) : Prop :=
  ∀ i o, i < n → st[i]? = some o → ∀ c ∈ o.childOrSiblingSelector, c < n

/-- Objects at addresses `≥ n` reference only addresses `≥ n`. -/
def FreshFrom (n : Nat) (st : Store) : Prop :=
  ∀ i o, n ≤ i → st[i]? = some o → ∀ c ∈ o.childOrSiblingSelector, n ≤ c

theorem getElem?_some_lt {st : Store} {i : Nat} {o : SObj}
    (h : st[i]? = some o) : i < st.length := by
  rcases List.getElem?_eq_some.1 h with ⟨h', _⟩
  exact h'

theorem wfStore_closedBelow {st : Store} (h : WFStore st) :
    ClosedBelow st.length st := by
  intro i o _ hio c hc
  exact (h o (List.getElem?_mem hio)).2.2.2 c hc

theorem freshFrom_length (st : Store) : FreshFrom st.length st := by
  intro i o hi hio
  rw [List.getElem?_eq_none hi] at hio
  cases hio

/-- Frame lemma: `valueOf` only reads the store on a reference-closed set of
addresses, so two stores agreeing there give the same value. -/
theorem valueOf_congr_all : ∀ (fuel : Nat) (P : Nat → Prop) (st₁ st₂ : Store),
    (∀ i, P i → st₁[i]? = st₂[i]?) →
    (∀ i o, P i → st₁[i]? = some o → ∀ c ∈ o.childOrSiblingSelector, P c) →
    (∀ a, P a → valueOf fuel st₁ a = valueOf fuel st₂ a) ∧
    (∀ cs, (∀ c ∈ cs, P c) →
      valueOfList (fun c => valueOf fuel st₁ c) cs =
        valueOfList (fun c => valueOf fuel st₂ c) cs) := by
  intro fuel
  induction fuel with
  | zero =>
    intro P st₁ st₂ hag hcl
    refine ⟨fun a _ => by simp only [valueOf], ?_⟩
    intro cs
    induction cs with
    | nil => intro _; simp only [valueOfList]
    | cons c cs ihc => intro _; simp only [valueOfList, valueOf]
  | succ f ih =>
    intro P st₁ st₂ hag hcl
    have hA : ∀ a, P a → valueOf (f + 1) st₁ a = valueOf (f + 1) st₂ a := by
      intro a hPa
      simp only [valueOf]
      rw [hag a hPa]
      cases h2 : st₂[a]? with
      | none => rfl
      | some o =>
        have hkids : ∀ c ∈ o.childOrSiblingSelector, P c :=
          hcl a o hPa (by rw [hag a hPa]; exact h2)
        dsimp only
        rw [(ih P st₁ st₂ hag hcl).2 o.childOrSiblingSelector hkids]
    refine ⟨hA, ?_⟩
    intro cs
    induction cs with
    | nil => intro _; simp only [valueOfList]
    | cons c cs ihc =>
      intro hcs
      simp only [valueOfList]
      rw [hA c (hcs c (by simp)), ihc (fun c' hc' => hcs c' (by simp [hc']))]

/-- Every address reachable from an address in the fresh region stays in the
fresh region when fresh objects reference only fresh addresses. -/
theorem reaches_ge_all : ∀ (fuel : Nat) (n : Nat) (st : Store),
    FreshFrom n st →
    (∀ a b, n ≤ a → Reaches fuel st a b = true → n ≤ b) ∧
    (∀ cs b, (∀ c ∈ cs, n ≤ c) →
      ReachesList (fun c => Reaches fuel st c b) cs = true → n ≤ b) := by
  intro fuel
  induction fuel with
  | zero =>
    intro n st hf
    constructor
    · intro a b _ h
      simp [Reaches] at h
    · intro cs b hcs h
      induction cs with
      | nil => simp [ReachesList] at h
      | cons c cs ihc =>
        simp only [ReachesList, Bool.or_eq_true] at h
        rcases h with h | h
        · simp [Reaches] at h
        · exact ihc (fun c' hc' => hcs c' (by simp [hc'])) h
  | succ f ih =>
    intro n st hf
    have hA : ∀ a b, n ≤ a → Reaches (f + 1) st a b = true → n ≤ b := by
      intro a b ha h
      simp only [Reaches, Bool.or_eq_true] at h
      rcases h with h | h
      · exact (beq_iff_eq.mp h) ▸ ha
      · cases ho : st[a]? with
        | none => rw [ho] at h; cases h
        | some o =>
          rw [ho] at h
          exact (ih n st hf).2 o.childOrSiblingSelector b
            (hf a o ha ho) h
    refine ⟨hA, ?_⟩
    intro cs b hcs h
    induction cs with
    | nil => simp [ReachesList] at h
    | cons c cs ihc =>
      simp only [ReachesList, Bool.or_eq_true] at h
      rcases h with h | h
      · exact hA c b (hcs c (by simp)) h
      · exact ihc (fun c' hc' => hcs c' (by simp [hc'])) h

theorem lookup_append_none (l : List (String × PyVal)) (x k : String)
    (v : PyVal) (h : l.lookup x = Option.none) (hx : x ≠ k) :
    (l ++ [(k, v)]).lookup x = Option.none := by
  have hxk : (x == k) = false := by simp [hx]
  induction l with
  | nil => simp [List.lookup_cons, hxk]
  | cons p l ih =>
    obtain ⟨a, b⟩ := p
    by_cases ha : x = a
    · simp [List.lookup_cons, ha] at h
    · have ha2 : (x == a) = false := by simp [ha]
      simp only [List.lookup_cons, ha2, List.cons_append] at h ⊢
      exact ih h

/-- Rebuilding a dict whose keys are distinct and recognized through the
constructor loop reproduces the field list and computes the OR-of-bits
mask. -/
theorem setAll_rebuild : ∀ (l acc : List (String × PyVal)) (m : Nat),
    (∀ p ∈ l, p.1 ∈ fieldNames) →
    ((l.map Prod.fst).Nodup) →
    (∀ p ∈ l, acc.lookup p.1 = Option.none) →
    setAll (.mk acc m [] []) l =
      .ok (.mk (acc ++ l) (l.foldl (fun mm p => mm ||| fieldBit p.1) m) [] []) := by
  intro l
  induction l with
  | nil =>
    intro acc m _ _ _
    simp only [setAll, List.append_nil, List.foldl_nil]
  | cons kv l ih =>
    intro acc m hrec hnd hacc
    obtain ⟨k, v⟩ := kv
    have hk : k ∈ fieldNames := hrec (k, v) (by simp)
    have hlk : acc.lookup k = Option.none := hacc (k, v) (by simp)
    simp only [setAll, Selector.setitem, if_pos hk]
    have hset : assocSet acc k v = acc ++ [(k, v)] := by
      unfold assocSet
      rw [if_neg (by rw [hlk]; simp)]
    rw [hset]
    have hnd' : (l.map Prod.fst).Nodup := by
      simpa using (List.nodup_cons.1 (by simpa using hnd)).2
    have hknotin : k ∉ l.map Prod.fst :=
      (List.nodup_cons.1 (by simpa using hnd)).1
    have hacc' : ∀ p ∈ l, (acc ++ [(k, v)]).lookup p.1 = Option.none := by
      intro p hp
      refine lookup_append_none acc p.1 k v (hacc p (by simp [hp])) ?_
      intro hkk
      exact hknotin (hkk ▸ List.mem_map_of_mem Prod.fst hp)
    have := ih (acc ++ [(k, v)]) (m ||| fieldBit k)
      (fun p hp => hrec p (by simp [hp])) hnd' hacc'
    rw [this, List.append_assoc]
    rfl

theorem wfObj_mono {n n' : Nat} {o : SObj} (h : n ≤ n') (hw : WFObj n o) :
    WFObj n' o :=
  ⟨hw.1, hw.2.1, hw.2.2.1, fun c hc => lt_of_lt_of_le (hw.2.2.2 c hc) h⟩

theorem wfStore_get {st : Store} {i : Nat} {o : SObj} (hw : WFStore st)
    (h : st[i]? = some o) : WFObj st.length o :=
  hw o (List.getElem?_mem h)

theorem wfStore_of_get {st : Store}
    (h : ∀ (i : Nat) (o : SObj), st[i]? = some o → WFObj st.length o) :
    WFStore st := by
  intro o ho
  rcases List.mem_iff_getElem?.1 ho with ⟨i, hi⟩
  exact h i o hi

theorem valueOf_some_lt {fuel : Nat} {st : Store} {a : Nat} {w : Selector}
    (h : valueOf fuel st a = some w) : a < st.length := by
  cases fuel with
  | zero => simp [valueOf] at h
  | succ f =>
    simp only [valueOf] at h
    cases ho : st[a]? with
    | none => rw [ho] at h; cases h
    | some o => exact getElem?_some_lt ho

/-- The full specification of `Heap.clone` / `Heap.cloneList`, by induction
on the fuel.  With `n` a boundary such that the region below `n` is
reference-closed and the region at or above `n` references only at or above
`n`: cloning an address below `n` leaves every existing object unchanged,
allocates only fresh objects (the root at the old store length), preserves
well-formedness and both closure properties, and the fresh root has the
same deep value as the original.  The list part specifies the kid-cloning
loop, which additionally appends the fresh roots to the object at `a'`. -/
theorem clone_spec_all : ∀ (fuel : Nat),
    (∀ (n : Nat) (st : Store) (a : Nat) (st' : Store) (a' : Nat),
      WFStore st → ClosedBelow n st → FreshFrom n st → n ≤ st.length →
      a < n →
      Heap.clone fuel st a = some (st', a') →
      (∀ i, i < st.length → st'[i]? = st[i]?) ∧
      st.length ≤ st'.length ∧
      (a' = st.length ∧ a' < st'.length) ∧
      WFStore st' ∧ FreshFrom n st' ∧ ClosedBelow n st' ∧
      (∀ w, valueOf fuel st a = some w → valueOf fuel st' a' = some w)) ∧
    (∀ (n : Nat) (a' : Nat) (cs : List Nat) (st st' : Store),
      WFStore st → ClosedBelow n st → FreshFrom n st → n ≤ st.length →
      n ≤ a' → a' < st.length → (∀ c ∈ cs, c < n) →
      Heap.cloneList (fun st c => Heap.clone fuel st c) st a' cs = some st' →
      (∀ i, i < st.length → i ≠ a' → st'[i]? = st[i]?) ∧
      st.length ≤ st'.length ∧
      WFStore st' ∧ FreshFrom n st' ∧ ClosedBelow n st' ∧
      (∀ p, st[a']? = some p →
        ∃ addrs, st'[a']? = some { p with childOrSiblingSelector :=
            p.childOrSiblingSelector ++ addrs } ∧
          (∀ x ∈ addrs, st.length ≤ x) ∧
          (∀ vs, valueOfList (fun c => valueOf fuel st c) cs = some vs →
            valueOfList (fun c => valueOf fuel st' c) addrs = some vs))) := by
  intro fuel
  induction fuel with
  | zero =>
    constructor
    · intro n st a st' a' _ _ _ _ _ hcl
      simp [Heap.clone] at hcl
    · intro n a' cs st st' hwf hcb hff _ _ _ _ hcl
      cases cs with
      | nil =>
        simp only [Heap.cloneList] at hcl
        injection hcl with hcl
        subst hcl
        refine ⟨fun i _ _ => rfl, le_refl _, hwf, hff, hcb, ?_⟩
        intro p hp
        refine ⟨[], by rw [List.append_nil]; exact hp, by simp, ?_⟩
        intro vs hvs
        simpa only [valueOfList] using hvs
      | cons c cs => simp [Heap.cloneList, Heap.clone] at hcl
  | succ f ih =>
    have cloneP : ∀ (n : Nat) (st : Store) (a : Nat) (st' : Store) (a' : Nat),
        WFStore st → ClosedBelow n st → FreshFrom n st → n ≤ st.length →
        a < n →
        Heap.clone (f + 1) st a = some (st', a') →
        (∀ i, i < st.length → st'[i]? = st[i]?) ∧
        st.length ≤ st'.length ∧
        (a' = st.length ∧ a' < st'.length) ∧
        WFStore st' ∧ FreshFrom n st' ∧ ClosedBelow n st' ∧
        (∀ w, valueOf (f + 1) st a = some w →
          valueOf (f + 1) st' a' = some w) := by
      intro n st a st' a' hwf hcb hff hnle han hcl
      simp only [Heap.clone] at hcl
      cases ho : st[a]? with
      | none => rw [ho] at hcl; cases hcl
      | some o =>
        rw [ho] at hcl
        dsimp only at hcl
        have hwfo : WFObj st.length o := wfStore_get hwf ho
        have hre : setAll (.mk [] 0 [] []) o.fields =
            .ok (.mk o.fields (maskOf o.fields) [] []) := by
          have := setAll_rebuild o.fields [] 0 hwfo.2.1 hwfo.1
            (fun p _ => rfl)
          simpa [maskOf] using this
        rw [hre] at hcl
        dsimp only [Selector.fields, Selector.mask] at hcl
        cases hcll : Heap.cloneList (fun st c => Heap.clone f st c)
            (st ++ [⟨o.fields, maskOf o.fields, o.childOrSibling, []⟩])
            st.length o.childOrSiblingSelector with
        | none => rw [hcll] at hcl; cases hcl
        | some st₂ =>
          rw [hcll] at hcl
          dsimp only at hcl
          injection hcl with hcl
          have hst2 : st₂ = st' := congrArg Prod.fst hcl
          have ha2 : st.length = a' := congrArg Prod.snd hcl
          subst hst2
          subst ha2
          set newObj : SObj :=
            ⟨o.fields, maskOf o.fields, o.childOrSibling, []⟩ with hnewObj
          have hlen₁ : (st ++ [newObj]).length = st.length + 1 := by simp
          have hget₁ : ∀ i, i < st.length → (st ++ [newObj])[i]? = st[i]? :=
            fun i hi => List.getElem?_append_left hi
          have hgetNew : (st ++ [newObj])[st.length]? = some newObj :=
            List.getElem?_concat_length st newObj
          have hwf₁ : WFStore (st ++ [newObj]) := by
            refine wfStore_of_get ?_
            intro i o' hio
            by_cases hi : i < st.length
            · rw [hget₁ i hi] at hio
              exact wfObj_mono (by simp) (wfStore_get hwf hio)
            · have hi2 : i < st.length + 1 := by
                have := getElem?_some_lt hio
                rwa [hlen₁] at this
              have hieq : i = st.length := by omega
              subst hieq
              rw [hgetNew] at hio
              injection hio with hio
              subst hio
              exact ⟨hwfo.1, hwfo.2.1, rfl, by simp⟩
          have hcb₁ : ClosedBelow n (st ++ [newObj]) := by
            intro i o' hi hio
            rw [hget₁ i (lt_of_lt_of_le hi hnle)] at hio
            exact hcb i o' hi hio
          have hff₁ : FreshFrom n (st ++ [newObj]) := by
            intro i o' hi hio
            by_cases hi2 : i < st.length
            · rw [hget₁ i hi2] at hio
              exact hff i o' hi hio
            · have hi3 : i < st.length + 1 := by
                have := getElem?_some_lt hio
                rwa [hlen₁] at this
              have hieq : i = st.length := by omega
              subst hieq
              rw [hgetNew] at hio
              injection hio with hio
              subst hio
              simp
          have hkidslt : ∀ c ∈ o.childOrSiblingSelector, c < n :=
            hcb a o han ho
          obtain ⟨lframe, hlen₂, hwf₂, hff₂, hcb₂, hEx⟩ :=
            ih.2 n st.length o.childOrSiblingSelector (st ++ [newObj]) st₂
              hwf₁ hcb₁ hff₁ (by omega) hnle (by omega) hkidslt hcll
          rw [hlen₁] at hlen₂
          refine ⟨?_, by omega, ⟨rfl, by omega⟩, hwf₂, hff₂, hcb₂, ?_⟩
          · intro i hi
            rw [lframe i (by omega) (by omega)]
            exact hget₁ i hi
          · intro w hw
            simp only [valueOf] at hw ⊢
            rw [ho] at hw
            dsimp only at hw
            cases hkv : valueOfList (fun c => valueOf f st c) o.childOrSiblingSelector with
            | none => rw [hkv] at hw; cases hw
            | some kidvals =>
              rw [hkv] at hw
              dsimp only at hw
              injection hw with hw
              have hkv₁ : valueOfList (fun c => valueOf f (st ++ [newObj]) c)
                  o.childOrSiblingSelector = some kidvals := by
                have hcg := (valueOf_congr_all f (fun i => i < st.length)
                  st (st ++ [newObj])
                  (fun i hi => (hget₁ i hi).symm)
                  (fun i o' hi hio c hc => (wfStore_get hwf hio).2.2.2 c hc)).2
                  o.childOrSiblingSelector (fun c hc => hwfo.2.2.2 c hc)
                rw [← hcg]
                exact hkv
              obtain ⟨addrs, hsta, _, hvals⟩ := hEx newObj hgetNew
              have haddrv := hvals kidvals hkv₁
              rw [hsta]
              dsimp only
              rw [show newObj.childOrSiblingSelector ++ addrs = addrs from by
                simp [hnewObj]]
              rw [haddrv]
              dsimp only
              rw [← hw]
              have hm := hwfo.2.2.1
              simp [hnewObj, ← hm]
    have cloneListP : ∀ (n : Nat) (a' : Nat) (cs : List Nat) (st st' : Store),
        WFStore st → ClosedBelow n st → FreshFrom n st → n ≤ st.length →
        n ≤ a' → a' < st.length → (∀ c ∈ cs, c < n) →
        Heap.cloneList (fun st c => Heap.clone (f + 1) st c) st a' cs = some st' →
        (∀ i, i < st.length → i ≠ a' → st'[i]? = st[i]?) ∧
        st.length ≤ st'.length ∧
        WFStore st' ∧ FreshFrom n st' ∧ ClosedBelow n st' ∧
        (∀ p, st[a']? = some p →
          ∃ addrs, st'[a']? = some { p with childOrSiblingSelector :=
              p.childOrSiblingSelector ++ addrs } ∧
            (∀ x ∈ addrs, st.length ≤ x) ∧
            (∀ vs, valueOfList (fun c => valueOf (f + 1) st c) cs = some vs →
              valueOfList (fun c => valueOf (f + 1) st' c) addrs = some vs)) := by
      intro n a' cs
      induction cs with
      | nil =>
        intro st st' hwf hcb hff hnle hna ha's hcslt hcl
        simp only [Heap.cloneList] at hcl
        injection hcl with hcl
        subst hcl
        refine ⟨fun i _ _ => rfl, le_refl _, hwf, hff, hcb, ?_⟩
        intro p hp
        refine ⟨[], by rw [List.append_nil]; exact hp, by simp, ?_⟩
        intro vs hvs
        simpa only [valueOfList] using hvs
      | cons c cs ihc =>
        intro st st' hwf hcb hff hnle hna ha's hcslt hcl
        simp only [Heap.cloneList] at hcl
        cases hc1 : Heap.clone (f + 1) st c with
        | none => rw [hc1] at hcl; cases hcl
        | some pr =>
          obtain ⟨st₂, c'⟩ := pr
          rw [hc1] at hcl
          dsimp only at hcl
          cases hak : appendKid st₂ a' c' with
          | none => rw [hak] at hcl; cases hcl
          | some st₃ =>
            rw [hak] at hcl
            dsimp only at hcl
            obtain ⟨frame₂, hlen₂, ⟨hc'eq, hc'lt⟩, hwf₂, hff₂, hcb₂, hval₂⟩ :=
              cloneP n st c st₂ c' hwf hcb hff hnle (hcslt c (by simp)) hc1
            obtain ⟨_, _, _, _, hffB, _, _⟩ :=
              cloneP st.length st c st₂ c' hwf (wfStore_closedBelow hwf)
                (freshFrom_length st) (le_refl _)
                (lt_of_lt_of_le (hcslt c (by simp)) hnle) hc1
            simp only [appendKid] at hak
            cases hpa2 : st₂[a']? with
            | none => rw [hpa2] at hak; cases hak
            | some p₂ =>
              rw [hpa2] at hak
              dsimp only at hak
              injection hak with hak
              have hpa : st[a']? = some p₂ := by
                rw [← frame₂ a' ha's]
                exact hpa2
              set p₃ : SObj := { p₂ with childOrSiblingSelector :=
                p₂.childOrSiblingSelector ++ [c'] } with hp₃
              -- st₃ = st₂.set a' p₃
              have hst₃ : st₂.set a' p₃ = st₃ := hak
              have hlen₃ : st₃.length = st₂.length := by
                rw [← hst₃]; exact List.length_set st₂ a' p₃
              have ha'lt₂ : a' < st₂.length := lt_of_lt_of_le ha's hlen₂
              have hget₃ne : ∀ i, i ≠ a' → st₃[i]? = st₂[i]? := by
                intro i hi
                rw [← hst₃, List.getElem?_set, if_neg (fun h => hi h.symm)]
              have hget₃a : st₃[a']? = some p₃ := by
                rw [← hst₃, List.getElem?_set, if_pos rfl, if_pos ha'lt₂]
              have hwfp₂ : WFObj st₂.length p₂ := wfStore_get hwf₂ hpa2
              have hwf₃ : WFStore st₃ := by
                refine wfStore_of_get ?_
                intro i o'' hio
                rw [hlen₃]
                by_cases hi : i = a'
                · subst hi
                  rw [hget₃a] at hio
                  injection hio with hio
                  subst hio
                  refine ⟨hwfp₂.1, hwfp₂.2.1, hwfp₂.2.2.1, ?_⟩
                  intro c'' hc''
                  rcases List.mem_append.1 hc'' with hc'' | hc''
                  · exact hwfp₂.2.2.2 c'' hc''
                  · rw [List.mem_singleton.1 hc'']
                    exact hc'lt
                · rw [hget₃ne i hi] at hio
                  exact wfStore_get hwf₂ hio
              have hff₃ : FreshFrom n st₃ := by
                intro i o'' hi hio
                by_cases hieq : i = a'
                · subst hieq
                  rw [hget₃a] at hio
                  injection hio with hio
                  subst hio
                  intro c'' hc''
                  rcases List.mem_append.1 hc'' with hc'' | hc''
                  · exact hff i p₂ hi hpa c'' hc''
                  · rw [List.mem_singleton.1 hc'', hc'eq]
                    exact hnle
                · rw [hget₃ne i hieq] at hio
                  exact hff₂ i o'' hi hio
              have hcb₃ : ClosedBelow n st₃ := by
                intro i o'' hi hio
                have hine : i ≠ a' := by omega
                rw [hget₃ne i hine] at hio
                exact hcb₂ i o'' hi hio
              obtain ⟨lframe', hlen', hwf', hff', hcb', hEx'⟩ :=
                ihc st₃ st' hwf₃ hcb₃ hff₃ (by omega) hna (by omega)
                  (fun x hx => hcslt x (by simp [hx])) hcl
              rw [hlen₃] at hlen'
              obtain ⟨tail, hsta', htailge, htailvals⟩ := hEx' p₃ hget₃a
              rw [hlen₃] at htailge
              refine ⟨?_, by omega, hwf', hff', hcb', ?_⟩
              · intro i hi hine
                rw [lframe' i (by omega) hine, hget₃ne i hine]
                exact frame₂ i hi
              · intro p hpp
                rw [hpp] at hpa
                injection hpa with hpa
                subst hpa
                refine ⟨c' :: tail, ?_, ?_, ?_⟩
                · rw [show p.childOrSiblingSelector ++ (c' :: tail) =
                    (p.childOrSiblingSelector ++ [c']) ++ tail from by simp]
                  exact hsta'
                · intro x hx
                  rcases List.mem_cons.1 hx with hx | hx
                  · rw [hx, hc'eq]
                  · exact le_trans hlen₂ (htailge x hx)
                · intro vs hvs
                  simp only [valueOfList] at hvs
                  cases hv1 : valueOf (f + 1) st c with
                  | none => rw [hv1] at hvs; cases hvs
                  | some v₁ =>
                    rw [hv1] at hvs
                    cases hvtl : valueOfList (fun c => valueOf (f + 1) st c) cs with
                    | none => rw [hvtl] at hvs; cases hvs
                    | some vtl =>
                      rw [hvtl] at hvs
                      dsimp only at hvs
                      injection hvs with hvs
                      -- value of the cloned head survives to st'
                      have hv₂ : valueOf (f + 1) st₂ c' = some v₁ :=
                        hval₂ v₁ hv1
                      have hblock : valueOf (f + 1) st₂ c' =
                          valueOf (f + 1) st' c' := by
                        refine (valueOf_congr_all (f + 1)
                          (fun i => st.length ≤ i ∧ i < st₂.length)
                          st₂ st' ?_ ?_).1 c' ⟨by rw [hc'eq], hc'lt⟩
                        · intro i hiP
                          rw [lframe' i (by omega) (by omega), hget₃ne i
                            (by omega)]
                        · intro i o'' hiP hio c'' hc''
                          exact ⟨hffB i o'' hiP.1 hio c'' hc'',
                            (wfStore_get hwf₂ hio).2.2.2 c'' hc''⟩
                      -- the tail list's values survive to st₃
                      have htl₃ : valueOfList (fun c => valueOf (f + 1) st₃ c) cs = some vtl := by
                        have hcg := (valueOf_congr_all (f + 1)
                          (fun i => i < n) st st₃ ?_ ?_).2 cs
                          (fun x hx => hcslt x (by simp [hx]))
                        · rw [← hcg]; exact hvtl
                        · intro i hi
                          rw [hget₃ne i (by omega)]
                          exact (frame₂ i (by omega)).symm
                        · intro i o'' hi hio c'' hc''
                          exact hcb i o'' hi hio c'' hc''
                      have htall := htailvals vtl htl₃
                      simp only [valueOfList]
                      rw [← hblock, hv₂, htall]
                      dsimp only
                      rw [hvs]
    exact ⟨cloneP, cloneListP⟩

/-- C5: `selector.clone()` (heap view).  For a well-formed store, if cloning
the selector at `a` succeeds and the selector's deep value is `w`, then:
the clone has the same deep value `w` (all scalar fields, the mask, the
relation tags and the nested selectors, recursively); every address `b`
reachable from the clone — the clone itself and all its nested
child/sibling selectors — is a fresh object allocated by the clone
(`st.length ≤ b`); and mutating any such `b` (setting a field through
`Selector.__setitem__`) leaves the original selector's deep value
unchanged. -/
theorem c5_clone_deep_copy (fuel : Nat) (st st' st'' : Store)
    (a a' b : Nat) (k : String) (pv : PyVal) (w : Selector)
    (hwf : WFStore st)
    (hclone : Heap.clone fuel st a = some (st', a'))
    (hval : valueOf fuel st a = some w)
    (hreach : Reaches fuel st' a' b = true)
    (hmut : mutateField st' b k pv = some st'') :
    valueOf fuel st' a' = some w ∧
    st.length ≤ b ∧
    valueOf fuel st'' a = some w := by
  have halt : a < st.length := valueOf_some_lt hval
  obtain ⟨frame, hlen, ⟨ha'eq, ha'lt⟩, hwf', hff', hcb', hvalp⟩ :=
    (clone_spec_all fuel).1 st.length st a st' a' hwf
      (wfStore_closedBelow hwf) (freshFrom_length st) (le_refl _) halt hclone
  have h1 : valueOf fuel st' a' = some w := hvalp w hval
  have h2 : st.length ≤ b := by
    have hffa : ∀ (i : Nat) (o : SObj), st.length ≤ i → st'[i]? = some o →
        ∀ c ∈ o.childOrSiblingSelector, st.length ≤ c := hff'
    exact (reaches_ge_all fuel st.length st' hffa).1 a' b (by rw [ha'eq])
      hreach
  simp only [mutateField] at hmut
  cases hob : st'[b]? with
  | none => rw [hob] at hmut; cases hmut
  | some ob =>
    rw [hob] at hmut
    dsimp only at hmut
    by_cases hk : k ∈ fieldNames
    · rw [if_pos hk] at hmut
      injection hmut with hmut
      have hget'' : ∀ i, i < st.length → st''[i]? = st[i]? := by
        intro i hi
        rw [← hmut, List.getElem?_set, if_neg (by omega)]
        exact frame i hi
      have hcg := (valueOf_congr_all fuel (fun i => i < st.length) st st''
        (fun i hi => (hget'' i hi).symm)
        (fun i o' hi hio c hc => (wfStore_get hwf hio).2.2.2 c hc)).1 a halt
      exact ⟨h1, h2, by rw [← hcg]; exact hval⟩
    · rw [if_neg hk] at hmut; cases hmut

/-- A concrete two-object store for the C5 witness: the selector at address
0 has field `text="a"`, one `"child"` relation tag, and the nested selector
at address 1. -/
def c5Store : Store :=
  [⟨[("text", .str "a")], 1, ["child"], [1]⟩, ⟨[], 0, [], []⟩]

/-- `c5Store` after `Heap.clone 3 c5Store 0`: the clone root at address 2,
its fresh nested selector at address 3. -/
def c5Store' : Store :=
  [⟨[("text", .str "a")], 1, ["child"], [1]⟩, ⟨[], 0, [], []⟩,
   ⟨[("text", .str "a")], 1, ["child"], [3]⟩, ⟨[], 0, [], []⟩]

/-- `c5Store'` after setting `text="zz"` on the clone's nested selector at
address 3. -/
def c5Store'' : Store :=
  [⟨[("text", .str "a")], 1, ["child"], [1]⟩, ⟨[], 0, [], []⟩,
   ⟨[("text", .str "a")], 1, ["child"], [3]⟩, ⟨[("text", .str "zz")], 1, [], []⟩]

/-- The deep value of the selector at address 0 of `c5Store`. -/
def c5Val : Selector :=
  .mk [("text", .str "a")] 1 ["child"] [.mk [] 0 [] []]

/-- Witness for C5 on `c5Store`: the clone at address 2 has the original's
deep value, its nested selector at address 3 is fresh, and mutating that
nested selector leaves the original's deep value intact. -/
theorem c5_witness :
    valueOf 3 c5Store' 2 = some c5Val ∧ c5Store.length ≤ 3 ∧
    valueOf 3 c5Store'' 0 = some c5Val :=
  c5_clone_deep_copy 3 c5Store c5Store' c5Store'' 0 2 3 "text" (.str "zz")
    c5Val (by decide) (by rfl) (by rfl) (by rfl) (by rfl)

end U2
